import Mathlib

/-!
# Verification of the noditor-graph processing/aggregation core

Shallow embedding of the repository's reusable core:

* the JS-object / `Map` semantics the code relies on (`jsGet`, `jsSet`,
  `jsMerge` model property lookup, property assignment / `Map.set`, and
  object spread `{...a, ...b}`);
* the Pipeline Engine (`ProcessingPipeline` in `src/processing.ts`);
* Neighbor Grouping (`getConnectedNodes`, `groupConnectedNodesByType`);
* the Step Factories needed by the claims (`createBatchProcessor`);
* the Graph-to-Output Adapter (`graphologyToD3` in `src/export.ts`);
* the Link Aggregator (`graphologyToMD` in `src/export.ts`), with the
  thrown `Error` modelled as `Except.error` and the single call of the
  finishing sink `generateMarkdown(items)` modelled by the `Except.ok`
  value: the aggregation result is exactly the map the sink receives.

The external graphology store is modelled at its interface boundary
(`Store`), as the specification prescribes.
-/

/-- A JS attribute value (string / number / boolean / null). Numbers are
modelled as integers; the claims under study never depend on float
behaviour. -/
inductive Value where
  | vStr : String → Value
  | vNum : Int → Value
  | vBool : Bool → Value
  | vNull : Value
deriving DecidableEq, Repr

/-- JS truthiness of a `Value` (`""`, `0`, `false`, `null` are falsy). -/
def Value.truthy : Value → Bool
  | .vStr s => s != ""
  | .vNum n => n != 0
  | .vBool b => b
  | .vNull => false

/-- String coercion applied by JS when a value is used as an object key. -/
def Value.toKey : Value → String
  | .vStr s => s
  | .vNum n => toString n
  | .vBool b => if b then "true" else "false"
  | .vNull => "null"

/-- A JS object / `Map`: an insertion-ordered association list with unique
keys.  Generic in the value type so that it also models `Map<string, TItem>`
and `Record<string, NodeWithAttributes[]>`. -/
abbrev JsObj (V : Type) := List (String × V)

/-- An attribute map (`Record<string, unknown>`). -/
abbrev Obj := JsObj Value

/-- Property lookup `o[k]` (`none` models `undefined`). -/
def jsGet {V : Type} : JsObj V → String → Option V
  | [], _ => none
  | p :: rest, k => if p.1 = k then some p.2 else jsGet rest k

/-- Property assignment `o[k] = v` / `Map.set(k, v)`: replaces the value at
an existing key in place (keeping its position), otherwise appends the new
key at the end — exactly the JS insertion-order semantics. -/
def jsSet {V : Type} : JsObj V → String → V → JsObj V
  | [], k, v => [(k, v)]
  | p :: rest, k, v => if p.1 = k then (k, v) :: rest else p :: jsSet rest k v

/-- Object spread `{...a, ...b}`: properties of `b` written over `a`,
later writes winning. -/
def jsMerge {V : Type} (a b : JsObj V) : JsObj V :=
  b.foldl (fun acc p => jsSet acc p.1 p.2) a

/-- The external graphology `DirectedGraph`, modelled at the interface
boundary used by the core (spec §6): node iteration order, per-node
attribute maps, neighbor queries by direction, edge list with extremities
and edge attribute maps. -/
structure Store where
  nodesList : List String
  attrs : String → Obj
  outN : String → List String
  inN : String → List String
  allN : String → List String
  edgesList : List String
  extremities : String → String × String
  edgeAttrs : String → Obj

/-- `graph.filterNodes(predicate)`: ids of the nodes satisfying the
predicate, in the store's native node iteration order. -/
def Store.filterNodes (g : Store) (p : String → Obj → Bool) : List String :=
  g.nodesList.filter (fun id => p id (g.attrs id))

/-- The `"in" | "out" | "both"` direction argument. -/
inductive Direction where
  | din
  | dout
  | dboth
deriving DecidableEq, Repr

/-- The neighbor function selected by `getConnectedNodes`'s conditional
chain (`inNeighbors` / `outNeighbors` / `neighbors`). -/
def neighborsOf (g : Store) (direction : Direction) (nodeId : String) : List String :=
  match direction with
  | .din => g.inN nodeId
  | .dout => g.outN nodeId
  | .dboth => g.allN nodeId

/-- The record `{ id, ...graph.getNodeAttributes(id) }` built for a node:
the literal `id` property, then the attribute map spread over it (so an
`"id"` attribute overwrites the node's actual id). -/
def mkNodeObj (g : Store) (id : String) : Obj :=
  jsMerge [("id", Value.vStr id)] (g.attrs id)

/-- `getConnectedNodes(graph, nodeId, direction = "out")`
(src/processing.ts): neighbor ids in the chosen direction, each mapped to
`{ id, ...graph.getNodeAttributes(id) }`. -/
def getConnectedNodes (g : Store) (nodeId : String)
    (direction : optParam Direction Direction.dout) : List Obj :=
  (neighborsOf g direction nodeId).map (mkNodeObj g)

/-- The group key `node.type || "unknown"` used by
`groupConnectedNodesByType`, including the JS string coercion of the key. -/
def typeKey (node : Obj) : String :=
  match jsGet node "type" with
  | some v => if v.truthy then v.toKey else "unknown"
  | none => "unknown"

/-- One loop iteration of `groupConnectedNodesByType`:
`if (!grouped[type]) grouped[type] = []; grouped[type].push(node)`. -/
def groupPush (grouped : JsObj (List Obj)) (t : String) (node : Obj) :
    JsObj (List Obj) :=
  jsSet grouped t ((jsGet grouped t).getD [] ++ [node])

/-- `groupConnectedNodesByType(graph, nodeId, direction = "out")`
(src/processing.ts): groups the connected-node records by
`node.type || "unknown"`. -/
def groupConnectedNodesByType (g : Store) (nodeId : String)
    (direction : optParam Direction Direction.dout) : JsObj (List Obj) :=
  (getConnectedNodes g nodeId direction).foldl
    (fun grouped node => groupPush grouped (typeKey node) node) []

section Pipeline

variable {A Ctx : Type}

/-- The `ProcessingPipeline` class (src/processing.ts): an ordered list of
processors plus the shared context.  Steps flow one value of type `A`; the
untyped `any`-chaining of the source is recovered by instantiating `A`
with a dynamic type such as `Value`. -/
structure ProcessingPipeline (A Ctx : Type) where
  processors : List (A → Ctx → A)
  context : Ctx

/-- `add(processor)`: appends a processor. -/
def ProcessingPipeline.add (pl : ProcessingPipeline A Ctx)
    (processor : A → Ctx → A) : ProcessingPipeline A Ctx :=
  { pl with processors := pl.processors ++ [processor] }

/-- `execute(input)`: `this.processors.reduce((data, p) => p(data, this.context), input)`. -/
def ProcessingPipeline.execute (pl : ProcessingPipeline A Ctx) (input : A) : A :=
  pl.processors.foldl (fun data processor => processor data pl.context) input

/-- `executeMany(inputs)`: maps `execute` over the collection. -/
def ProcessingPipeline.executeMany (pl : ProcessingPipeline A Ctx)
    (inputs : List A) : List A :=
  inputs.map pl.execute

/-- `getContext()`. -/
def ProcessingPipeline.getContext (pl : ProcessingPipeline A Ctx) : Ctx :=
  pl.context

/-- `updateContext(updates)`: `this.context = { ...this.context, ...updates }`,
for the open-object context the source uses. -/
def ProcessingPipeline.updateContext (pl : ProcessingPipeline A Obj)
    (updates : Obj) : ProcessingPipeline A Obj :=
  { pl with context := jsMerge pl.context updates }

end Pipeline

/-- The `ProcessingContext` as consumed by the store-reading step
factories: a `graph` field plus arbitrary further fields (modelled by an
extra-data type `E`). -/
structure BatchContext (E : Type) where
  graph : Store
  extra : E

/-- `createBatchProcessor(nodeFilter, processFn)` (src/processing.ts):
computes `context.graph.filterNodes(nodeFilter)` once, then runs the
side-effecting `processFn` on each selected node in that order.  The
in-place mutation performed by `processFn` through the context is made
explicit as a state transformer on the context; the `void` return of the
processor is the `Unit` component. -/
def createBatchProcessor {E : Type} (nodeFilter : String → Obj → Bool)
    (processFn : String → BatchContext E → BatchContext E) :
    Unit → BatchContext E → BatchContext E × Unit :=
  fun _ context =>
    ((context.graph.filterNodes nodeFilter).foldl
      (fun ctx node => processFn node ctx) context, ())

/-- A flattened node `{ id: string } & Record<string, unknown>` as typed by
`graphologyToMD`'s `TGraph` constraint (src/export.ts). -/
structure FlatNode where
  id : String
  attrs : Obj
deriving DecidableEq, Repr

/-- A flattened link `{ source: string; target: string } & Record<string, unknown>`. -/
structure FlatLink where
  source : String
  target : String
  attrs : Obj
deriving DecidableEq, Repr

/-- The flattened export format `{ nodes, links }` (src/types.ts `GraphOutput`). -/
structure GraphOutput where
  nodes : List FlatNode
  links : List FlatLink
deriving Repr

/-- The output of `graphologyToD3`: node and link objects as plain JS
objects (built with object spread, so attribute keys can shadow the
built-in `id` / `source` / `target` properties). -/
structure D3Output where
  nodes : List Obj
  links : List Obj
deriving Repr

/-- `graphologyToD3(graph)` (src/export.ts lines 7-23): flattens the store
into `{ nodes: [{id, ...attrs}], links: [{source, target, ...attrs}] }`,
in the store's native iteration order. -/
def graphologyToD3 (g : Store) : D3Output :=
  { nodes := g.nodesList.map (fun id => jsMerge [("id", Value.vStr id)] (g.attrs id)),
    links := g.edgesList.map (fun e =>
      jsMerge [("source", Value.vStr (g.extremities e).1),
               ("target", Value.vStr (g.extremities e).2)] (g.edgeAttrs e)) }

/-- The source-node lookup of `graphologyToMD` (src/export.ts lines 70-73):
`rows.nodes.find(n => { if (n.id !== row.source) return false;
return nodeFilter ? nodeFilter(n) : true; })`. -/
def findSourceNode (nodes : List FlatNode) (nodeFilter : Option (FlatNode → Bool))
    (s : String) : Option FlatNode :=
  nodes.find? (fun n =>
    if n.id == s then
      match nodeFilter with
      | some f => f n
      | none => true
    else false)

/-- The target-node lookup of `graphologyToMD` (src/export.ts line 84):
`rows.nodes.find(n => n.id === row.target)` — id equality only, no filter. -/
def findTargetNode (nodes : List FlatNode) (t : String) : Option FlatNode :=
  nodes.find? (fun n => n.id == t)

/-- One iteration of the `for (const row of rows.links)` loop of
`graphologyToMD` (src/export.ts lines 63-90): reuse the existing item for
`row.source` or create-and-populate a fresh one from the (filtered) source
node, failing when no such node exists; then process the link with the
possibly absent target node and re-insert the item under `row.source`. -/
def mdStep {TItem : Type} (nodes : List FlatNode)
    (nodeFilter : Option (FlatNode → Bool))
    (createEmptyItem : Unit → TItem)
    (populateItemFromNode : TItem → FlatNode → TItem)
    (processLink : TItem → FlatLink → Option FlatNode → TItem)
    (items : JsObj TItem) (row : FlatLink) : Except String (JsObj TItem) :=
  match jsGet items row.source with
  | some d =>
    Except.ok (jsSet items row.source
      (processLink d row (findTargetNode nodes row.target)))
  | none =>
    match findSourceNode nodes nodeFilter row.source with
    | none =>
      Except.error ("No node found for " ++ row.source ++ " => " ++ row.target)
    | some node =>
      Except.ok (jsSet items row.source
        (processLink (populateItemFromNode (createEmptyItem ()) node) row
          (findTargetNode nodes row.target)))

/-- The full link-scanning loop of `graphologyToMD`: scans the links in
order, threading the item map; a thrown `Error` short-circuits as
`Except.error`. -/
def mdLoop {TItem : Type} (nodes : List FlatNode)
    (nodeFilter : Option (FlatNode → Bool))
    (createEmptyItem : Unit → TItem)
    (populateItemFromNode : TItem → FlatNode → TItem)
    (processLink : TItem → FlatLink → Option FlatNode → TItem)
    (items : JsObj TItem) : List FlatLink → Except String (JsObj TItem)
  | [] => Except.ok items
  | row :: rest =>
    match mdStep nodes nodeFilter createEmptyItem populateItemFromNode
        processLink items row with
    | Except.error e => Except.error e
    | Except.ok items' =>
      mdLoop nodes nodeFilter createEmptyItem populateItemFromNode
        processLink items' rest

/-- `graphologyToMD` (src/export.ts lines 35-93).  On success the result is
the completed `Map<string, TItem>` that the code hands to the finishing
sink in its single call `generateMarkdown(items)`; `Except.error` models
the thrown `Error`, in which case the sink is never invoked. -/
def graphologyToMD {TItem : Type} (rows : GraphOutput)
    (nodeFilter : Option (FlatNode → Bool))
    (createEmptyItem : Unit → TItem)
    (populateItemFromNode : TItem → FlatNode → TItem)
    (processLink : TItem → FlatLink → Option FlatNode → TItem) :
    Except String (JsObj TItem) :=
  mdLoop rows.nodes nodeFilter createEmptyItem populateItemFromNode
    processLink [] rows.links

/-- Folding `processLink` over a list of links from a given start record:
the characterisation of how one source's aggregate record is built. -/
def foldLinks {TItem : Type} (nodes : List FlatNode)
    (processLink : TItem → FlatLink → Option FlatNode → TItem)
    (d : TItem) (ls : List FlatLink) : TItem :=
  ls.foldl (fun acc l => processLink acc l (findTargetNode nodes l.target)) d

/-- Accumulate a key if not seen yet (how `Map.set` extends the key set). -/
def insertIfAbsent (acc : List String) (s : String) : List String :=
  if s ∈ acc then acc else acc ++ [s]

/-- Keys in first-seen order, continuing from an accumulator. -/
def firstSeenFrom (acc : List String) (l : List String) : List String :=
  l.foldl insertIfAbsent acc

/-- Keys of a list in the order each is first seen. -/
def firstSeen (l : List String) : List String :=
  firstSeenFrom [] l

/-! ## Lemmas about the JS object model -/

theorem jsGet_nil {V : Type} (k : String) : jsGet ([] : JsObj V) k = none := rfl

theorem jsGet_cons {V : Type} (p : String × V) (rest : JsObj V) (k : String) :
    jsGet (p :: rest) k = if p.1 = k then some p.2 else jsGet rest k := rfl

theorem jsGet_jsSet_self {V : Type} (o : JsObj V) (k : String) (v : V) :
    jsGet (jsSet o k v) k = some v := by
  induction o with
  | nil => simp [jsGet, jsSet]
  | cons p rest ih =>
    by_cases h : p.1 = k <;> simp [jsGet, jsSet, h, ih]

theorem jsGet_jsSet_ne {V : Type} (o : JsObj V) (k k' : String) (v : V)
    (h : k' ≠ k) : jsGet (jsSet o k v) k' = jsGet o k' := by
  induction o with
  | nil => simp [jsGet, jsSet, Ne.symm h]
  | cons p rest ih =>
    by_cases hp : p.1 = k
    · subst hp
      simp [jsSet, jsGet, Ne.symm h]
    · simp only [jsSet, if_neg hp, jsGet]
      by_cases hp' : p.1 = k' <;> simp [hp', ih]

theorem jsSet_keys {V : Type} (o : JsObj V) (k : String) (v : V) :
    (jsSet o k v).map Prod.fst = insertIfAbsent (o.map Prod.fst) k := by
  induction o with
  | nil => simp [jsSet, insertIfAbsent]
  | cons p rest ih =>
    by_cases h : p.1 = k
    · simp [jsSet, insertIfAbsent, h]
    · simp only [jsSet, if_neg h, List.map_cons, ih, insertIfAbsent]
      by_cases hk : k ∈ rest.map Prod.fst <;>
        simp [hk, List.mem_cons, Ne.symm h]

theorem jsGet_eq_none_of_not_mem {V : Type} (o : JsObj V) (k : String)
    (h : k ∉ o.map Prod.fst) : jsGet o k = none := by
  induction o with
  | nil => rfl
  | cons p rest ih =>
    simp only [List.map_cons, List.mem_cons] at h
    push_neg at h
    simp [jsGet, Ne.symm h.1, ih h.2]

theorem jsGet_jsMerge {V : Type} (a b : JsObj V)
    (hnd : (b.map Prod.fst).Nodup) (k : String) :
    jsGet (jsMerge a b) k =
      match jsGet b k with
      | some v => some v
      | none => jsGet a k := by
  induction b generalizing a with
  | nil => simp [jsMerge, jsGet]
  | cons p rest ih =>
    simp only [List.map_cons, List.nodup_cons] at hnd
    have hmerge : jsMerge a (p :: rest) = jsMerge (jsSet a p.1 p.2) rest := rfl
    rw [hmerge, ih _ hnd.2]
    by_cases h : p.1 = k
    · subst h
      have : jsGet rest p.1 = none :=
        jsGet_eq_none_of_not_mem rest p.1 hnd.1
      simp [this, jsGet, jsGet_jsSet_self]
    · have : jsGet (jsSet a p.1 p.2) k = jsGet a k :=
        jsGet_jsSet_ne a p.1 k p.2 (fun hh => h hh.symm)
      simp [jsGet, h, this]

/-! ## Lemmas about the grouping fold -/

theorem insertIfAbsent_nodup (acc : List String) (s : String) (h : acc.Nodup) :
    (insertIfAbsent acc s).Nodup := by
  unfold insertIfAbsent
  split
  · exact h
  · next hs =>
    refine List.Nodup.append h (List.nodup_singleton s) ?_
    intro a ha hmem
    rw [List.mem_singleton] at hmem
    subst hmem
    exact hs ha

theorem jsGet_groupPush_self (acc : JsObj (List Obj)) (t : String) (node : Obj) :
    jsGet (groupPush acc t node) t = some ((jsGet acc t).getD [] ++ [node]) :=
  jsGet_jsSet_self acc t _

theorem jsGet_groupPush_ne (acc : JsObj (List Obj)) (t k : String) (node : Obj)
    (h : k ≠ t) : jsGet (groupPush acc t node) k = jsGet acc k :=
  jsGet_jsSet_ne acc t k _ h

theorem groupFold_jsGet (l : List Obj) : ∀ (acc : JsObj (List Obj)) (k : String),
    jsGet (l.foldl (fun g n => groupPush g (typeKey n) n) acc) k =
      match jsGet acc k with
      | some xs => some (xs ++ l.filter (fun r => typeKey r == k))
      | none =>
        if l.filter (fun r => typeKey r == k) = [] then none
        else some (l.filter (fun r => typeKey r == k)) := by
  induction l with
  | nil =>
    intro acc k
    cases h : jsGet acc k <;> simp [h]
  | cons n rest ih =>
    intro acc k
    rw [List.foldl_cons, ih (groupPush acc (typeKey n) n) k]
    by_cases ht : typeKey n = k
    · have hf : (n :: rest).filter (fun r => typeKey r == k) =
          n :: rest.filter (fun r => typeKey r == k) := by
        simp [List.filter_cons, ht]
      have hpush : jsGet (groupPush acc (typeKey n) n) k =
          some ((jsGet acc k).getD [] ++ [n]) := by
        rw [← ht]
        exact jsGet_groupPush_self acc (typeKey n) n
      rw [hpush, hf]
      cases h : jsGet acc k <;> simp [h]
    · have hf : (n :: rest).filter (fun r => typeKey r == k) =
          rest.filter (fun r => typeKey r == k) := by
        simp [List.filter_cons, ht]
      have hpush : jsGet (groupPush acc (typeKey n) n) k = jsGet acc k :=
        jsGet_groupPush_ne acc (typeKey n) k n (fun hh => ht hh.symm)
      rw [hpush, hf]

theorem groupFold_keys_nodup (l : List Obj) :
    ∀ (acc : JsObj (List Obj)), (acc.map Prod.fst).Nodup →
    ((l.foldl (fun g n => groupPush g (typeKey n) n) acc).map Prod.fst).Nodup := by
  induction l with
  | nil => intro acc h; exact h
  | cons n rest ih =>
    intro acc h
    rw [List.foldl_cons]
    refine ih (groupPush acc (typeKey n) n) ?_
    rw [groupPush, jsSet_keys]
    exact insertIfAbsent_nodup _ _ h

/-! ## Lemmas about the link-aggregation loop -/

theorem mdLoop_append {TItem : Type} (nodes : List FlatNode)
    (filt : Option (FlatNode → Bool)) (ce : Unit → TItem)
    (pf : TItem → FlatNode → TItem)
    (pl : TItem → FlatLink → Option FlatNode → TItem)
    (xs ys : List FlatLink) :
    ∀ (items : JsObj TItem),
    mdLoop nodes filt ce pf pl items (xs ++ ys) =
      match mdLoop nodes filt ce pf pl items xs with
      | Except.error e => Except.error e
      | Except.ok i => mdLoop nodes filt ce pf pl i ys := by
  induction xs with
  | nil => intro items; simp [mdLoop]
  | cons row rest ih =>
    intro items
    simp only [List.cons_append, mdLoop]
    cases hstep : mdStep nodes filt ce pf pl items row with
    | error e => simp
    | ok items' => simp [ih items']

theorem mdLoop_jsGet {TItem : Type} (nodes : List FlatNode)
    (filt : Option (FlatNode → Bool)) (ce : Unit → TItem)
    (pf : TItem → FlatNode → TItem)
    (pl : TItem → FlatLink → Option FlatNode → TItem) :
    ∀ (ls : List FlatLink) (items m : JsObj TItem),
    mdLoop nodes filt ce pf pl items ls = Except.ok m →
    ∀ s, jsGet m s =
      match jsGet items s with
      | some d => some (foldLinks nodes pl d (ls.filter (fun l => l.source == s)))
      | none =>
        match findSourceNode nodes filt s with
        | some n =>
          if ls.filter (fun l => l.source == s) = [] then none
          else some (foldLinks nodes pl (pf (ce ()) n)
            (ls.filter (fun l => l.source == s)))
        | none => none := by
  intro ls
  induction ls with
  | nil =>
    intro items m h s
    simp only [mdLoop] at h
    injection h with h
    subst h
    cases hg : jsGet items s with
    | some d => simp [hg, foldLinks]
    | none =>
      cases hf : findSourceNode nodes filt s with
      | some n => simp [hg, hf]
      | none => simp [hg, hf]
  | cons row rest ih =>
    intro items m h s
    simp only [mdLoop] at h
    cases hd : jsGet items row.source with
    | some d =>
      simp only [mdStep, hd] at h
      have IH := ih _ m h s
      by_cases hs : row.source = s
      · subst hs
        rw [jsGet_jsSet_self] at IH
        rw [hd]
        have hfil : (row :: rest).filter (fun l => l.source == row.source) =
            row :: rest.filter (fun l => l.source == row.source) := by
          simp [List.filter_cons]
        rw [hfil]
        exact IH
      · have hne : s ≠ row.source := fun hh => hs hh.symm
        rw [jsGet_jsSet_ne items row.source s _ hne] at IH
        have hb : (row.source == s) = false := by simp [hs]
        have hfil : (row :: rest).filter (fun l => l.source == s) =
            rest.filter (fun l => l.source == s) := by
          simp [List.filter_cons, hb]
        rw [hfil]
        exact IH
    | none =>
      cases hf : findSourceNode nodes filt row.source with
      | none => simp [mdStep, hd, hf] at h
      | some n =>
        simp only [mdStep, hd, hf] at h
        have IH := ih _ m h s
        by_cases hs : row.source = s
        · subst hs
          rw [jsGet_jsSet_self] at IH
          rw [hd, hf]
          have hfil : (row :: rest).filter (fun l => l.source == row.source) =
              row :: rest.filter (fun l => l.source == row.source) := by
            simp [List.filter_cons]
          rw [hfil]
          show jsGet m row.source =
            if row :: rest.filter (fun l => l.source == row.source) = [] then none
            else some (foldLinks nodes pl (pf (ce ()) n)
              (row :: rest.filter (fun l => l.source == row.source)))
          rw [if_neg (List.cons_ne_nil _ _)]
          exact IH
        · have hne : s ≠ row.source := fun hh => hs hh.symm
          rw [jsGet_jsSet_ne items row.source s _ hne] at IH
          have hb : (row.source == s) = false := by simp [hs]
          have hfil : (row :: rest).filter (fun l => l.source == s) =
              rest.filter (fun l => l.source == s) := by
            simp [List.filter_cons, hb]
          rw [hfil]
          exact IH

theorem mdLoop_keys {TItem : Type} (nodes : List FlatNode)
    (filt : Option (FlatNode → Bool)) (ce : Unit → TItem)
    (pf : TItem → FlatNode → TItem)
    (pl : TItem → FlatLink → Option FlatNode → TItem) :
    ∀ (ls : List FlatLink) (items m : JsObj TItem),
    mdLoop nodes filt ce pf pl items ls = Except.ok m →
    m.map Prod.fst =
      firstSeenFrom (items.map Prod.fst) (ls.map (fun l => l.source)) := by
  intro ls
  induction ls with
  | nil =>
    intro items m h
    simp only [mdLoop] at h
    injection h with h
    subst h
    simp [firstSeenFrom]
  | cons row rest ih =>
    intro items m h
    simp only [mdLoop] at h
    cases hd : jsGet items row.source with
    | some d =>
      simp only [mdStep, hd] at h
      rw [ih _ m h, jsSet_keys]
      simp [firstSeenFrom]
    | none =>
      cases hf : findSourceNode nodes filt row.source with
      | none => simp [mdStep, hd, hf] at h
      | some n =>
        simp only [mdStep, hd, hf] at h
        rw [ih _ m h, jsSet_keys]
        simp [firstSeenFrom]

theorem firstSeenFrom_nodup (l : List String) :
    ∀ (acc : List String), acc.Nodup → (firstSeenFrom acc l).Nodup := by
  induction l with
  | nil => intro acc h; exact h
  | cons s rest ih =>
    intro acc h
    exact ih (insertIfAbsent acc s) (insertIfAbsent_nodup acc s h)

theorem mdLoop_source_found {TItem : Type} (nodes : List FlatNode)
    (filt : Option (FlatNode → Bool)) (ce : Unit → TItem)
    (pf : TItem → FlatNode → TItem)
    (pl : TItem → FlatLink → Option FlatNode → TItem) :
    ∀ (ls : List FlatLink) (items m : JsObj TItem),
    mdLoop nodes filt ce pf pl items ls = Except.ok m →
    ∀ l ∈ ls, (jsGet items l.source).isSome = true ∨
      ∃ n, findSourceNode nodes filt l.source = some n := by
  intro ls
  induction ls with
  | nil => intro items m _ l hl; exact absurd hl (List.not_mem_nil l)
  | cons row rest ih =>
    intro items m h l hl
    simp only [mdLoop] at h
    cases hd : jsGet items row.source with
    | some d =>
      simp only [mdStep, hd] at h
      rcases List.mem_cons.mp hl with rfl | hl'
      · exact Or.inl (by rw [hd]; rfl)
      · rcases ih _ m h l hl' with hleft | hright
        · by_cases hs : l.source = row.source
          · exact Or.inl (by rw [hs, hd]; rfl)
          · rw [jsGet_jsSet_ne items row.source l.source _ hs] at hleft
            exact Or.inl hleft
        · exact Or.inr hright
    | none =>
      cases hf : findSourceNode nodes filt row.source with
      | none => simp [mdStep, hd, hf] at h
      | some n =>
        simp only [mdStep, hd, hf] at h
        rcases List.mem_cons.mp hl with rfl | hl'
        · exact Or.inr ⟨n, hf⟩
        · rcases ih _ m h l hl' with hleft | hright
          · by_cases hs : l.source = row.source
            · exact Or.inr ⟨n, by rw [hs]; exact hf⟩
            · rw [jsGet_jsSet_ne items row.source l.source _ hs] at hleft
              exact Or.inl hleft
          · exact Or.inr hright

/-! ## Claim theorems -/

/-- **C4**: the Pipeline Engine's `execute` over an empty step list returns
the input unchanged; over steps `[s1, s2]` (whether given directly or
inserted via `add`) it equals `s2(s1(input, ctx), ctx)`; in general it runs
the steps as a left fold in insertion order, each step receiving the
previous step's output, and returns the final step's output unchanged. -/
theorem pipeline_execute_composition {A Ctx : Type} (ctx : Ctx) (input : A)
    (s1 s2 : A → Ctx → A) (ps : List (A → Ctx → A)) :
    ProcessingPipeline.execute ⟨[], ctx⟩ input = input ∧
    ProcessingPipeline.execute ⟨[s1, s2], ctx⟩ input = s2 (s1 input ctx) ctx ∧
    (((ProcessingPipeline.mk [] ctx).add s1).add s2).execute input =
      s2 (s1 input ctx) ctx ∧
    ProcessingPipeline.execute ⟨ps, ctx⟩ input =
      ps.foldl (fun data p => p data ctx) input := by
  refine ⟨rfl, rfl, ?_, rfl⟩
  simp [ProcessingPipeline.add, ProcessingPipeline.execute]

/-- **C5**: `groupConnectedNodesByType` partitions the neighbor records
exhaustively and disjointly: the group stored under key `k` is exactly the
sublist of neighbor records whose type key (the `"type"` attribute, with
missing/falsy type defaulting to `"unknown"`) equals `k`, in the same
relative order as the underlying neighbor list, and the group keys are
pairwise distinct — so every neighbor record lies in exactly one group. -/
theorem groupConnectedNodesByType_partition (g : Store) (nodeId : String)
    (direction : Direction) :
    (∀ k, jsGet (groupConnectedNodesByType g nodeId direction) k =
      (if (getConnectedNodes g nodeId direction).filter
            (fun r => typeKey r == k) = []
       then none
       else some ((getConnectedNodes g nodeId direction).filter
         (fun r => typeKey r == k)))) ∧
    ((groupConnectedNodesByType g nodeId direction).map Prod.fst).Nodup := by
  constructor
  · intro k
    exact groupFold_jsGet (getConnectedNodes g nodeId direction) [] k
  · exact groupFold_keys_nodup _ [] (by simp)

/-- **C10**: calling `getConnectedNodes` or `groupConnectedNodesByType`
without a direction argument is the same as calling it with the `"out"`
direction, and the default traversal reads exactly the store's
out-neighbors. -/
theorem connected_nodes_default_direction_out (g : Store) (nodeId : String) :
    getConnectedNodes g nodeId = getConnectedNodes g nodeId Direction.dout ∧
    groupConnectedNodesByType g nodeId =
      groupConnectedNodesByType g nodeId Direction.dout ∧
    getConnectedNodes g nodeId = (g.outN nodeId).map (mkNodeObj g) :=
  ⟨rfl, rfl, rfl⟩

/-- **C8**: `updateContext` merges shallowly and non-destructively:
`getContext` afterwards returns `{...context, ...updates}`; every top-level
key present in `updates` now maps to the update's value (last-write-wins),
and every other top-level key keeps its previous value. -/
theorem updateContext_shallow_merge {A : Type} (pl : ProcessingPipeline A Obj)
    (updates : Obj) (hnd : (updates.map Prod.fst).Nodup) :
    (pl.updateContext updates).getContext = jsMerge pl.context updates ∧
    (∀ k v, jsGet updates k = some v →
      jsGet ((pl.updateContext updates).getContext) k = some v) ∧
    (∀ k, jsGet updates k = none →
      jsGet ((pl.updateContext updates).getContext) k = jsGet pl.context k) := by
  refine ⟨rfl, ?_, ?_⟩
  · intro k v hv
    have h := jsGet_jsMerge pl.context updates hnd k
    rw [hv] at h
    exact h
  · intro k hv
    have h := jsGet_jsMerge pl.context updates hnd k
    rw [hv] at h
    exact h

/-- Witness for **C8**: a concrete merge where key `"b"` conflicts (the
update wins) on a context `[a ↦ 1, b ↦ 2]` updated with `[b ↦ 9, c ↦ 3]`. -/
theorem updateContext_shallow_merge_witness :
    jsGet ((ProcessingPipeline.updateContext
      (ProcessingPipeline.mk ([] : List (Value → Obj → Value))
        [("a", Value.vNum 1), ("b", Value.vNum 2)])
      [("b", Value.vNum 9), ("c", Value.vNum 3)]).getContext) "b" =
      some (Value.vNum 9) :=
  (updateContext_shallow_merge
    (ProcessingPipeline.mk ([] : List (Value → Obj → Value))
      [("a", Value.vNum 1), ("b", Value.vNum 2)])
    [("b", Value.vNum 9), ("c", Value.vNum 3)] (by decide)).2.1
    "b" (Value.vNum 9) (by decide)

/-- **C7**: the batch-processor step runs the per-node action as a fold
over `filterNodes`: the action is invoked exactly once per node satisfying
the predicate (for a store with distinct node ids), in the store's native
node iteration order (the invocation list is a sublist of `nodesList`),
never on a non-matching node, and the step's value output is `()`. -/
theorem createBatchProcessor_matching_nodes {E : Type} (g : Store) (extra : E)
    (p : String → Obj → Bool) (f : String → BatchContext E → BatchContext E)
    (hnd : g.nodesList.Nodup) :
    createBatchProcessor p f () ⟨g, extra⟩ =
      ((g.filterNodes p).foldl (fun ctx node => f node ctx) ⟨g, extra⟩, ()) ∧
    List.Sublist (g.filterNodes p) g.nodesList ∧
    (∀ id ∈ g.filterNodes p, p id (g.attrs id) = true) ∧
    (∀ id ∈ g.nodesList, p id (g.attrs id) = true →
      (g.filterNodes p).count id = 1) ∧
    (∀ id, p id (g.attrs id) = false → id ∉ g.filterNodes p) := by
  refine ⟨rfl, List.filter_sublist _, ?_, ?_, ?_⟩
  · intro id hid
    exact (List.mem_filter.mp hid).2
  · intro id hmem hp
    have hnodup : (g.filterNodes p).Nodup := List.Nodup.filter _ hnd
    have hin : id ∈ g.filterNodes p := List.mem_filter.mpr ⟨hmem, hp⟩
    exact List.count_eq_one_of_mem hnodup hin
  · intro id hp hin
    have := (List.mem_filter.mp hin).2
    simp [hp] at this

/-- Witness for **C7**: a store with one matching node `"i1"` (type
`"item"`) and one non-matching node `"n1"` (type `"tier"`): the action is
invoked exactly once on `"i1"`. -/
theorem createBatchProcessor_matching_nodes_witness :
    (Store.filterNodes
      ⟨["i1", "n1"],
       (fun id => if id = "i1" then [("type", Value.vStr "item")]
                  else [("type", Value.vStr "tier")]),
       (fun _ => []), (fun _ => []), (fun _ => []), [],
       (fun _ => ("", "")), (fun _ => [])⟩
      (fun _ attrs => decide (jsGet attrs "type" = some (Value.vStr "item")))).count
      "i1" = 1 :=
  (createBatchProcessor_matching_nodes
    ⟨["i1", "n1"],
     (fun id => if id = "i1" then [("type", Value.vStr "item")]
                else [("type", Value.vStr "tier")]),
     (fun _ => []), (fun _ => []), (fun _ => []), [],
     (fun _ => ("", "")), (fun _ => [])⟩
    () (fun _ attrs => decide (jsGet attrs "type" = some (Value.vStr "item")))
    (fun _ ctx => ctx) (by decide)).2.2.2.1 "i1" (by decide) (by decide)

/-- **C9**: the node records built as `{ id, ...attributes }` (by
`getConnectedNodes` and by `graphologyToD3`) let an `"id"` attribute in the
attribute map override the node's actual id: the record's `"id"` property
equals the attribute value whenever a key `"id"` exists in the attribute
map, and equals the node's id only when no such attribute exists. -/
theorem node_record_id_override (g : Store) (nodeId nbr : String)
    (dir : Direction) (hnd : ((g.attrs nbr).map Prod.fst).Nodup) :
    (∀ v, jsGet (g.attrs nbr) "id" = some v →
      jsGet (mkNodeObj g nbr) "id" = some v) ∧
    (jsGet (g.attrs nbr) "id" = none →
      jsGet (mkNodeObj g nbr) "id" = some (Value.vStr nbr)) ∧
    getConnectedNodes g nodeId dir = (neighborsOf g dir nodeId).map (mkNodeObj g) ∧
    (graphologyToD3 g).nodes = g.nodesList.map (mkNodeObj g) := by
  refine ⟨?_, ?_, rfl, rfl⟩
  · intro v hv
    have h := jsGet_jsMerge [("id", Value.vStr nbr)] (g.attrs nbr) hnd "id"
    rw [hv] at h
    exact h
  · intro hv
    have h := jsGet_jsMerge [("id", Value.vStr nbr)] (g.attrs nbr) hnd "id"
    rw [hv] at h
    rw [mkNodeObj, h]
    rfl

/-- Witness for **C9**: a node `"B"` whose attribute map contains
`id: "Z"`; the produced record's `"id"` property is `"Z"`, not `"B"`. -/
theorem node_record_id_override_witness :
    jsGet (mkNodeObj
      ⟨["B"],
       (fun _ => [("id", Value.vStr "Z"), ("type", Value.vStr "item")]),
       (fun _ => []), (fun _ => []), (fun _ => []), [],
       (fun _ => ("", "")), (fun _ => [])⟩
      "B") "id" = some (Value.vStr "Z") :=
  (node_record_id_override
    ⟨["B"],
     (fun _ => [("id", Value.vStr "Z"), ("type", Value.vStr "item")]),
     (fun _ => []), (fun _ => []), (fun _ => []), [],
     (fun _ => ("", "")), (fun _ => [])⟩
    "A" "B" Direction.dout (by decide)).1 (Value.vStr "Z") (by decide)

/-- **C6**: for every link the aggregator locates the target node solely by
id equality with `link.target` — no node filter is applied (the result does
not depend on `filt`) — and, whenever the source record is available
(already present, or freshly creatable), the step succeeds and hands the
fold function the record, the link, and the found node or `none`: an
absent target never makes the aggregator itself fail. -/
theorem aggregator_target_by_id_only {TItem : Type} (nodes : List FlatNode)
    (filt : Option (FlatNode → Bool)) (ce : Unit → TItem)
    (pf : TItem → FlatNode → TItem)
    (pl : TItem → FlatLink → Option FlatNode → TItem)
    (items : JsObj TItem) (row : FlatLink) :
    findTargetNode nodes row.target = nodes.find? (fun n => n.id == row.target) ∧
    (∀ d, jsGet items row.source = some d →
      mdStep nodes filt ce pf pl items row =
        Except.ok (jsSet items row.source
          (pl d row (nodes.find? (fun n => n.id == row.target))))) ∧
    (∀ n, jsGet items row.source = none →
      findSourceNode nodes filt row.source = some n →
      mdStep nodes filt ce pf pl items row =
        Except.ok (jsSet items row.source
          (pl (pf (ce ()) n) row (nodes.find? (fun n => n.id == row.target))))) := by
  refine ⟨rfl, ?_, ?_⟩
  · intro d hd
    simp [mdStep, hd, findTargetNode]
  · intro n hd hf
    simp [mdStep, hd, hf, findTargetNode]

/-- Witness for **C6**: target `"B"` is absent from the nodes list, yet the
step succeeds and the fold function receives `none` (here it increments the
record when the target is absent). -/
theorem aggregator_target_by_id_only_witness :
    mdStep [FlatNode.mk "A" []] none (fun _ => (0 : Nat)) (fun d _ => d)
      (fun d _ t => if t.isSome then d else d + 1)
      [("A", (5 : Nat))] (FlatLink.mk "A" "B" []) =
      Except.ok [("A", (6 : Nat))] :=
  (aggregator_target_by_id_only [FlatNode.mk "A" []] none (fun _ => (0 : Nat))
    (fun d _ => d) (fun d _ t => if t.isSome then d else d + 1)
    [("A", (5 : Nat))] (FlatLink.mk "A" "B" [])).2.1 5 (by decide)

/-- **C1**: if, scanning the links, a link `l` is reached whose source has
no record yet (the prefix `L1` before it completed normally) and no node in
the nodes list passes the id + filter test for `l.source`, the whole
aggregation fails with the missing-source-node error naming `l.source` and
`l.target`, regardless of the remaining links `L2` — the run yields
`Except.error`, so the finishing sink is never invoked and no partial
result is produced. -/
theorem graphologyToMD_missing_source_aborts {TItem : Type}
    (nodes : List FlatNode) (L1 L2 : List FlatLink) (l : FlatLink)
    (filt : Option (FlatNode → Bool)) (ce : Unit → TItem)
    (pf : TItem → FlatNode → TItem)
    (pl : TItem → FlatLink → Option FlatNode → TItem)
    (I : JsObj TItem)
    (hpre : mdLoop nodes filt ce pf pl [] L1 = Except.ok I)
    (hmiss : findSourceNode nodes filt l.source = none) :
    graphologyToMD ⟨nodes, L1 ++ l :: L2⟩ filt ce pf pl =
      Except.error ("No node found for " ++ l.source ++ " => " ++ l.target) := by
  have hI : jsGet I l.source = none := by
    have h2 := mdLoop_jsGet nodes filt ce pf pl L1 [] I hpre l.source
    simpa [jsGet, hmiss] using h2
  rw [graphologyToMD]
  rw [mdLoop_append nodes filt ce pf pl L1 (l :: L2) [], hpre]
  show mdLoop nodes filt ce pf pl I (l :: L2) =
    Except.error ("No node found for " ++ l.source ++ " => " ++ l.target)
  simp only [mdLoop, mdStep, hI, hmiss]

/-- Witness for **C1**: the spec's own scenario — nodes
`A : item`, `C : tier`, node filter `type === "item"`, one link `C → A`:
`"C"` exists but is rejected by the filter, so aggregation fails with the
missing-source-node error naming `C` and `A`. -/
theorem graphologyToMD_missing_source_aborts_witness :
    graphologyToMD
      ⟨[FlatNode.mk "A" [("type", Value.vStr "item")],
        FlatNode.mk "C" [("type", Value.vStr "tier")]],
       [FlatLink.mk "C" "A" []]⟩
      (some (fun n => decide (jsGet n.attrs "type" = some (Value.vStr "item"))))
      (fun _ => (0 : Nat)) (fun d _ => d) (fun d _ _ => d) =
      Except.error ("No node found for " ++ "C" ++ " => " ++ "A") :=
  graphologyToMD_missing_source_aborts
    [FlatNode.mk "A" [("type", Value.vStr "item")],
     FlatNode.mk "C" [("type", Value.vStr "tier")]]
    [] [] (FlatLink.mk "C" "A" [])
    (some (fun n => decide (jsGet n.attrs "type" = some (Value.vStr "item"))))
    (fun _ => (0 : Nat)) (fun d _ => d) (fun d _ _ => d) [] rfl rfl

/-- **C2**: on a successful run the final mapping holds exactly one record
per distinct source id occurring in the links (keys are pairwise distinct);
a source id occurring in no link has no record, whether or not it appears
in the nodes list; and the record of each occurring source `s` is exactly
the fold of `processLink` over all links with source `s` (in link order,
each paired with its id-matched target node or `none`), seeded by
populating the empty-factory record from the filtered source node found
for `s` — i.e. the record is created and populated exactly once, at the
first link with that source, and every later link with the same source
refines that same record. -/
theorem graphologyToMD_one_record_per_source {TItem : Type}
    (rows : GraphOutput) (filt : Option (FlatNode → Bool))
    (ce : Unit → TItem) (pf : TItem → FlatNode → TItem)
    (pl : TItem → FlatLink → Option FlatNode → TItem)
    (m : JsObj TItem)
    (h : graphologyToMD rows filt ce pf pl = Except.ok m) :
    (m.map Prod.fst).Nodup ∧
    (∀ s, s ∉ rows.links.map (fun l => l.source) → jsGet m s = none) ∧
    (∀ s ∈ rows.links.map (fun l => l.source),
      ∃ n, findSourceNode rows.nodes filt s = some n ∧
        jsGet m s = some (foldLinks rows.nodes pl (pf (ce ()) n)
          (rows.links.filter (fun l => l.source == s)))) := by
  refine ⟨?_, ?_, ?_⟩
  · rw [mdLoop_keys rows.nodes filt ce pf pl rows.links [] m h]
    exact firstSeenFrom_nodup _ [] List.nodup_nil
  · intro s hs
    have h2 := mdLoop_jsGet rows.nodes filt ce pf pl rows.links [] m h s
    have hfil : rows.links.filter (fun l => l.source == s) = [] := by
      refine List.filter_eq_nil_iff.mpr ?_
      intro a ha
      simp only [beq_iff_eq]
      intro heq
      exact hs (List.mem_map.mpr ⟨a, ha, heq⟩)
    cases hf : findSourceNode rows.nodes filt s with
    | some n => simpa [jsGet, hf, hfil] using h2
    | none => simpa [jsGet, hf] using h2
  · intro s hs
    obtain ⟨l, hl, rfl⟩ := List.mem_map.mp hs
    have hres := mdLoop_source_found rows.nodes filt ce pf pl rows.links [] m h l hl
    rcases hres with hleft | ⟨n, hn⟩
    · simp [jsGet] at hleft
    · refine ⟨n, hn, ?_⟩
      have h2 := mdLoop_jsGet rows.nodes filt ce pf pl rows.links [] m h l.source
      have hne : rows.links.filter (fun x => x.source == l.source) ≠ [] := by
        intro hc
        have hmem : l ∈ rows.links.filter (fun x => x.source == l.source) :=
          List.mem_filter.mpr ⟨hl, by simp⟩
        rw [hc] at hmem
        exact absurd hmem (List.not_mem_nil l)
      simpa [jsGet, hn, hne] using h2

/-- Witness for **C2**: nodes `A`, `B` and one link `A → B`; the resulting
map is `[("A", 3)]`, where `3` is exactly the fold (seed
`pf (ce ()) n = 0 + 1`, one link tripling it). -/
theorem graphologyToMD_one_record_per_source_witness :
    ∃ n, findSourceNode [FlatNode.mk "A" [], FlatNode.mk "B" []] none "A" =
        some n ∧
      jsGet [("A", (3 : Nat))] "A" =
        some (foldLinks [FlatNode.mk "A" [], FlatNode.mk "B" []]
          (fun d _ _ => d * 3)
          ((fun (d : Nat) (_ : FlatNode) => d + 1) ((fun _ => (0 : Nat)) ()) n)
          (List.filter (fun l => l.source == "A")
            [FlatLink.mk "A" "B" [("amount", Value.vNum 7)]])) :=
  (graphologyToMD_one_record_per_source
    ⟨[FlatNode.mk "A" [], FlatNode.mk "B" []],
     [FlatLink.mk "A" "B" [("amount", Value.vNum 7)]]⟩
    none (fun _ => (0 : Nat)) (fun d _ => d + 1) (fun d _ _ => d * 3)
    [("A", (3 : Nat))] rfl).2.2 "A" (by decide)

/-- **C3**: on a successful run the finishing sink receives (in the single
`generateMarkdown(items)` call, modelled by the `Except.ok` payload) the
complete mapping, whose keys iterate in the order each source id was first
seen while scanning the links — and that key order is the same for any
other nodes list with which the same links also aggregate successfully. -/
theorem graphologyToMD_sink_first_seen_order {TItem : Type}
    (rows : GraphOutput) (filt : Option (FlatNode → Bool))
    (ce : Unit → TItem) (pf : TItem → FlatNode → TItem)
    (pl : TItem → FlatLink → Option FlatNode → TItem)
    (m : JsObj TItem)
    (h : graphologyToMD rows filt ce pf pl = Except.ok m) :
    m.map Prod.fst = firstSeen (rows.links.map (fun l => l.source)) ∧
    (∀ (nodes' : List FlatNode) (m' : JsObj TItem),
      graphologyToMD ⟨nodes', rows.links⟩ filt ce pf pl = Except.ok m' →
      m'.map Prod.fst = m.map Prod.fst) := by
  have h1 := mdLoop_keys rows.nodes filt ce pf pl rows.links [] m h
  constructor
  · exact h1
  · intro nodes' m' h'
    have h2 := mdLoop_keys nodes' filt ce pf pl rows.links [] m' h'
    rw [h2, h1]

/-- Witness for **C3**: links `B→A, A→B, B→C` over nodes `A`, `B` yield the
key order `["B", "A"]` — sources in first-seen link order, not nodes
order. -/
theorem graphologyToMD_sink_first_seen_order_witness :
    List.map Prod.fst [("B", (0 : Nat)), ("A", (0 : Nat))] =
      firstSeen (List.map (fun l => l.source)
        [FlatLink.mk "B" "A" [], FlatLink.mk "A" "B" [],
         FlatLink.mk "B" "C" []]) :=
  (graphologyToMD_sink_first_seen_order
    ⟨[FlatNode.mk "A" [], FlatNode.mk "B" []],
     [FlatLink.mk "B" "A" [], FlatLink.mk "A" "B" [], FlatLink.mk "B" "C" []]⟩
    none (fun _ => (0 : Nat)) (fun d _ => d) (fun d _ _ => d)
    [("B", (0 : Nat)), ("A", (0 : Nat))] rfl).1
